import Mathlib

/-!
Verification development for the HFT-Deribit messaging core.

Each definition below is a shallow embedding of a function or data
structure of the repository (file and symbol named in its doc comment).
Machine integers are modelled as `Nat`/`Int` with explicit `% 2^w` where
overflow matters; C++ strings are modelled as `String` or `List Char`;
fallible operations return `Option`.
-/

/-- Table size `MAX_INFLIGHT` from `dispatcher.h`: number of RPC handler slots. -/
def MAX_INFLIGHT : Nat := 4096

/-- Table size `SUB_TABLE` from `dispatcher.h`: number of subscription handler slots. -/
def SUB_TABLE : Nat := 4096

/-- Conversion applied by `static_cast<uint32_t>(c)` in `fast_hash`
(`fast_hash.h`): `c` has type `char`, which is signed 8-bit on the
x86-64 Linux target of this repository, so a byte value `b ≥ 128`
represents the negative number `b - 256` and the cast sign-extends it to
the 32-bit value `2^32 - 256 + b`. -/
def signed_char_to_u32 (b : Nat) : Nat :=
  if b < 128 then b else 4294967040 + b

/-- Embedding of `fast_hash` (`fast_hash.h`): iterate over the bytes of
the input, xor the `static_cast<uint32_t>` of each `char` into the
accumulator, multiply by `16777619u` (32-bit wrapping). The input is the
list of byte values of the string. -/
def fast_hash (bytes : List Nat) : Nat :=
  bytes.foldl (fun h b => ((h ^^^ signed_char_to_u32 b) * 16777619) % 4294967296) 2166136261

/-- Reference definition following the spec's words for FNV-1a (32-bit):
starting from offset basis `2166136261`, for each octet in order xor the
octet into the hash and multiply by the prime `16777619` modulo `2^32`.
Used only for comparison with `fast_hash`. -/
def fnv1a32 (bytes : List Nat) : Nat :=
  bytes.foldl (fun h b => ((h ^^^ b) * 16777619) % 4294967296) 2166136261

/-- Byte values of a string (C++ `std::string_view` iterates bytes). -/
def strBytes (s : String) : List Nat :=
  s.toUTF8.toList.map (fun b => b.toNat)

/-- Model of the JSON documents the dispatcher inspects (`simdjson`
values): null, booleans, integral numbers, strings, arrays, objects as
ordered field lists (lookup returns the first match). -/
inductive Json where
  | null : Json
  | bool : Bool → Json
  | num : Int → Json
  | str : String → Json
  | arr : List Json → Json
  | obj : List (String × Json) → Json

/-- Field access `doc["k"]` on a JSON value: succeeds only on objects,
returning the first field named `k`. -/
def Json.find? (j : Json) (k : String) : Option Json :=
  match j with
  | .obj fields => fields.lookup k
  | _ => none

/-- Embedding of `doc["k"].get_uint64()`: succeeds iff the field is
present and an integral number representable as an unsigned 64-bit value. -/
def Json.getUint64 (j : Json) (k : String) : Option Nat :=
  match j.find? k with
  | some (.num n) => if 0 ≤ n ∧ n < 18446744073709551616 then some n.toNat else none
  | _ => none

/-- Embedding of `obj["k"].get_string()`: succeeds iff the field is
present and a string. -/
def Json.getString (j : Json) (k : String) : Option String :=
  match j.find? k with
  | some (.str s) => some s
  | _ => none

/-- Test performed by `Dispatcher::dispatch` on `doc["error"]`:
`err.error() == SUCCESS && !err.is_null()`, i.e. the member is present
and not JSON null. -/
def errorNonNull (doc : Json) : Bool :=
  match doc.find? "error" with
  | some .null => false
  | some _ => true
  | none => false

/-- Embedding of `ParsedMessage` (`parsed_message.h`). Zero-copy views
are modelled as `Option Json` / `String`; the timing fields exist in the
struct but are never assigned by `dispatch` (the source reads them into
a discarded temporary). -/
structure ParsedMessage where
  access_token : String := ""
  is_rpc : Bool := false
  is_subscription : Bool := false
  is_error : Bool := false
  id : Nat := 0
  error_code : Nat := 0
  usIn : Nat := 0
  usOut : Nat := 0
  usDiff : Nat := 0
  channel : String := ""
  data : Option Json := none
  result : Option Json := none
  error_msg : String := ""

/-- Embedding of `RPCHandler` (`rpc_handler.h`): the two callback
function pointers are modelled as `Option Nat` (a numeric identity of
the callback, `none` for a null pointer) and the opaque `user_data`
pointer as a `Nat`. -/
structure RPCHandler where
  on_success : Option Nat := none
  on_error : Option Nat := none
  user_data : Nat := 0

/-- Observable callback invocations performed by a single `dispatch`
call: the callback's identity, the forwarded `user_data` (for RPC
callbacks), and the `ParsedMessage` argument. -/
inductive Invocation where
  | success : Nat → Nat → ParsedMessage → Invocation
  | failure : Nat → Nat → ParsedMessage → Invocation
  | notification : Nat → ParsedMessage → Invocation

/-- Embedding of `Dispatcher::register_rpc` (`dispatcher.h` lines 62-71):
overwrite the slot at index `id & (MAX_INFLIGHT - 1)`. -/
def Dispatcher.register_rpc (rpc_handler : Nat → RPCHandler) (id : Nat)
    (on_success on_error : Option Nat) (user_data : Nat) : Nat → RPCHandler :=
  fun i => if i = id &&& (MAX_INFLIGHT - 1) then ⟨on_success, on_error, user_data⟩ else rpc_handler i

/-- ParsedMessage after the RPC-detection step of `dispatch` for a frame
whose `id` parsed as the unsigned 64-bit value `u`. -/
def rpcBaseMessage (u : Nat) : ParsedMessage :=
  { is_rpc := true, id := u }

/-- ParsedMessage passed to `on_error` by `dispatch`: `is_error` is set,
`error_code` receives `err["code"]` (left `0` when absent or not an
integer; the signed value is converted to the unsigned 64-bit field) and
`error_msg` receives `err["message"]` (left empty when absent). -/
def rpcErrorMessage (doc : Json) (u : Nat) : ParsedMessage :=
  let e := (doc.find? "error").getD .null
  let code : Int := match e.find? "code" with
    | some (.num n) => n
    | _ => 0
  let msg : String := match e.find? "message" with
    | some (.str s) => s
    | _ => ""
  { rpcBaseMessage u with
      is_error := true
      error_code := (code.emod 18446744073709551616).toNat
      error_msg := msg }

/-- ParsedMessage passed to `on_success` by `dispatch`: `result` receives
the raw `result` member when present, and `access_token` is copied when
`result` is an object carrying a string `access_token`. -/
def rpcSuccessMessage (doc : Json) (u : Nat) : ParsedMessage :=
  let pm := match doc.find? "result" with
    | some r => { rpcBaseMessage u with result := some r }
    | none => rpcBaseMessage u
  match doc.find? "result" with
  | some r =>
    (match r.getString "access_token" with
     | some t => { pm with access_token := t }
     | none => pm)
  | none => pm

/-- Embedding of `Dispatcher::dispatch` (`dispatcher.h` lines 106-208)
for a frame that parsed successfully. `rpc_handler` and `sub_handler`
are the two fixed tables (a subscription slot is `Option Nat`, `none`
for a null pointer); the returned list is the sequence of callback
invocations the call performs. -/
def Dispatcher.dispatch (rpc_handler : Nat → RPCHandler) (sub_handler : Nat → Option Nat)
    (doc : Json) : List Invocation :=
  let pm1 : ParsedMessage :=
    match doc.getUint64 "id" with
    | some u => rpcBaseMessage u
    | none => {}
  let pm2 : ParsedMessage :=
    if !pm1.is_rpc then
      match doc.find? "method" with
      | some (.str m) => if m = "subscription" then { pm1 with is_subscription := true } else pm1
      | _ => pm1
    else pm1
  let rpcEvents : List Invocation :=
    if pm2.is_rpc then
      let h := rpc_handler (pm2.id &&& (MAX_INFLIGHT - 1))
      if errorNonNull doc then
        match h.on_error with
        | some f => [.failure f h.user_data (rpcErrorMessage doc pm2.id)]
        | none => []
      else
        match h.on_success with
        | some f => [.success f h.user_data (rpcSuccessMessage doc pm2.id)]
        | none => []
    else []
  let subEvents : List Invocation :=
    if pm2.is_subscription then
      match doc.find? "params" with
      | some (.obj fields) =>
        (match (Json.obj fields).getString "channel" with
         | some ch =>
           (match (Json.obj fields).find? "data" with
            | some d =>
              let pm3 := { pm2 with channel := ch, data := some d }
              (match sub_handler (fast_hash (strBytes ch) &&& (SUB_TABLE - 1)) with
               | some f => [.notification f pm3]
               | none => [])
            | none => [])
         | none => [])
      | _ => []
    else []
  rpcEvents ++ subEvents

/-- Embedding of `SPSCQueue<T, N>` (`spsc_queue.h`): ring buffer state.
The `std::array<T, N>` is modelled as a function on indices; `head` and
`tail` range over `[0, N)` (the code only ever stores masked values). -/
structure SPSCQueue (T : Type) (N : Nat) where
  buffer : Nat → T
  head : Nat
  tail : Nat

/-- Embedding of `SPSCQueue::push` (`spsc_queue.h` lines 56-72): compute
`next = (head + 1) & (N - 1)`; fail (returning the state unchanged) when
`next == tail`; otherwise store the value at `head` and publish `next`. -/
def SPSCQueue.push {T : Type} {N : Nat} (s : SPSCQueue T N) (v : T) : Bool × SPSCQueue T N :=
  let h := s.head
  let next := (h + 1) &&& (N - 1)
  if next = s.tail then (false, s)
  else (true, { s with buffer := Function.update s.buffer h v, head := next })

/-- Embedding of `SPSCQueue::pop` (`spsc_queue.h` lines 83-92): return
`none` when `tail == head`; otherwise read the element at `tail` and
advance `tail` by one (masked). -/
def SPSCQueue.pop {T : Type} {N : Nat} (s : SPSCQueue T N) : Option T × SPSCQueue T N :=
  let t := s.tail
  if t = s.head then (none, s)
  else (some (s.buffer t), { s with tail := (t + 1) &&& (N - 1) })

/-- Abstraction function: the sequence of elements currently stored in
the ring, oldest first — the slots from `tail` (inclusive) to `head`
(exclusive), wrapping at `N`. -/
def SPSCQueue.toList {T : Type} {N : Nat} (s : SPSCQueue T N) : List T :=
  if s.tail ≤ s.head then
    (List.range (s.head - s.tail)).map (fun i => s.buffer (s.tail + i))
  else
    ((List.range (N - s.tail)).map (fun i => s.buffer (s.tail + i)))
      ++ ((List.range s.head).map s.buffer)

/-- Operations a producer/consumer pair can perform on the queue. -/
inductive QOp (T : Type) where
  | push : T → QOp T
  | pop : QOp T

/-- Observable outcome of one queue operation: the boolean returned by
`push`, or the optional element returned by `pop`. -/
inductive QObs (T : Type) where
  | pushed : Bool → QObs T
  | popped : Option T → QObs T
  deriving DecidableEq

/-- Run a sequence of operations against the ring buffer, collecting the
observations. -/
def SPSCQueue.runOps {T : Type} {N : Nat} (s : SPSCQueue T N) :
    List (QOp T) → SPSCQueue T N × List (QObs T)
  | [] => (s, [])
  | op :: ops =>
    match op with
    | .push v =>
      let r := s.push v
      let rest := SPSCQueue.runOps r.2 ops
      (rest.1, .pushed r.1 :: rest.2)
    | .pop =>
      let r := s.pop
      let rest := SPSCQueue.runOps r.2 ops
      (rest.1, .popped r.1 :: rest.2)

/-- Specification-level FIFO of capacity `cap`: `push` appends unless
`cap` elements are stored, `pop` removes the oldest element. -/
def fifoStep {T : Type} (cap : Nat) (l : List T) : QOp T → List T × QObs T
  | .push v => if l.length = cap then (l, .pushed false) else (l ++ [v], .pushed true)
  | .pop =>
    match l with
    | [] => ([], .popped none)
    | x :: xs => (xs, .popped (some x))

/-- Run a sequence of operations against the FIFO model. -/
def fifoRun {T : Type} (cap : Nat) (l : List T) : List (QOp T) → List T × List (QObs T)
  | [] => (l, [])
  | op :: ops =>
    let r := fifoStep cap l op
    let rest := fifoRun cap r.1 ops
    (rest.1, r.2 :: rest.2)

/-- Burst capacity `MAX_TOKENS` of the token bucket (`rate_limiter.h`). -/
def MAX_TOKENS : ℚ := 20

/-- Refill rate `REFILL_RATE` of the token bucket (`rate_limiter.h`),
in tokens per second. -/
def REFILL_RATE : ℚ := 5

/-- Embedding of `RateLimiter` (`rate_limiter.h`): the `double` token
balance and `steady_clock` time point are modelled as exact rationals
(time in seconds). -/
structure RateLimiter where
  tokens : ℚ
  last_refill : ℚ

/-- Embedding of `RateLimiter::allow_request` (`rate_limiter.h` lines
46-63) called at monotonic time `now`: refill
`tokens = min(MAX_TOKENS, tokens + REFILL_RATE * elapsed)`, update
`last_refill`, then consume one token iff `tokens >= 1`. -/
def RateLimiter.allow_request (s : RateLimiter) (now : ℚ) : Bool × RateLimiter :=
  let elapsed := now - s.last_refill
  let t := min MAX_TOKENS (s.tokens + REFILL_RATE * elapsed)
  if 1 ≤ t then (true, ⟨t - 1, now⟩) else (false, ⟨t, now⟩)

/-- Run a sequence of admission queries at the given times, counting how
many are admitted. -/
def RateLimiter.run (s : RateLimiter) : List ℚ → Nat × RateLimiter
  | [] => (0, s)
  | t :: ts =>
    let r := s.allow_request t
    let rest := RateLimiter.run r.2 ts
    (rest.1 + (if r.1 then 1 else 0), rest.2)

/-- Embedding of `std::string::find(pat)`: index of the first occurrence
of `pat` in `s`, `none` when absent (`npos`). -/
def findSub (s pat : List Char) : Option Nat :=
  match s with
  | [] => if pat.isEmpty then some 0 else none
  | _ :: rest =>
    if pat.isPrefixOf s then some 0
    else (findSub rest pat).map (· + 1)

/-- Embedding of `std::string::rfind(c)`: index of the last occurrence
of the character `c` in `s`, `none` when absent (`npos`). -/
def rfindPos (c : Char) (s : List Char) : Option Nat :=
  match s with
  | [] => none
  | x :: rest =>
    match rfindPos c rest with
    | some i => some (i + 1)
    | none => if x = c then some 0 else none

/-- Embedding of `std::string::insert(pos, ins)`: insert `ins` before
the character at index `pos`. -/
def insertAt (s : List Char) (pos : Nat) (ins : List Char) : List Char :=
  s.take pos ++ ins ++ s.drop pos

/-- Search pattern `"\"private/"` used by `RequestSender::start`
(`request_sender.h` line 93) to classify a frame as a private RPC. -/
def privatePat : List Char := ("\"private/").data

/-- Text `R"(,"access_token":")" + token + "\""` spliced into private
frames by `RequestSender::start` (`request_sender.h` lines 100-101). -/
def tokenPair (token : String) : List Char :=
  (",\"access_token\":\"").data ++ token.data ++ ('"' :: [])

/-- Embedding of the per-message transformation performed by the sender
loop in `RequestSender::start` (`request_sender.h` lines 93-108): if the
frame text contains `"private/` anywhere, and the access token is
non-empty, insert `,"access_token":"<token>"` before the last `}` of the
frame (when one exists); otherwise (empty token: a warning is logged)
the frame is sent unchanged. -/
def inject_token (token : String) (msg : List Char) : List Char :=
  if (findSub msg privatePat).isSome then
    if token.isEmpty = false then
      match rfindPos '\x7d' msg with
      | some pos => insertAt msg pos (tokenPair token)
      | none => msg
    else msg
  else msg

/-- Frame formatting performed by `DeribitClient::send_rpc`
(`deribit_client.h` lines 410-411):
`{"jsonrpc":"2.0","id":<id>,"method":"<method>","params":<params>}`. -/
def mkRpcMsg (id : Nat) (method params : String) : String :=
  "\x7b\"jsonrpc\":\"2.0\",\"id\":" ++ toString id ++ ",\"method\":\"" ++ method
    ++ "\",\"params\":" ++ params ++ "\x7d"

/-- State of the client façade relevant to `send_rpc`: its rate limiter
and the outbound `SPSCQueue<std::string, 1024>`. -/
structure DeribitClient where
  rate_limiter : RateLimiter
  outbound_queue : SPSCQueue String 1024

/-- Embedding of `DeribitClient::send_rpc` (`deribit_client.h` lines
404-415), called at monotonic time `now`: consult the rate limiter and
return `false` when it denies; otherwise format the frame, push it onto
the outbound queue — discarding `push`'s boolean result, exactly as the
source does — and return `true`. -/
def DeribitClient.send_rpc (c : DeribitClient) (now : ℚ) (id : Nat)
    (method params : String) : Bool × DeribitClient :=
  let gate := c.rate_limiter.allow_request now
  if gate.1 = false then (false, { c with rate_limiter := gate.2 })
  else
    let msg := mkRpcMsg id method params
    let pushed := c.outbound_queue.push msg
    (true, { rate_limiter := gate.2, outbound_queue := pushed.2 })

/-- Embedding of the candle record `OHLCV` (`ohlcv.h` as used by
`historical_ohlcv.h`); `open` is renamed `open_px` because `open` is a
Lean keyword. Only `ts_ms` is inspected by the fetcher's
post-processing. -/
structure OHLCV where
  ts_ms : Int
  open_px : Float
  high : Float
  low : Float
  close : Float
  volume : Float
  cost : Float

/-- Value of `std::stoll` on the digit strings the fetcher feeds it
(`"1"`, `"5"`, `"15"`, `"60"`, `"1440"`). -/
def parseDigits (s : List Char) : Nat :=
  s.foldl (fun acc c => acc * 10 + (c.toNat - 48)) 0

/-- Resolution rewriting in `fetch_n_ohlcv` (`historical_ohlcv.h` line
101): `res_val = (resolution == "1D") ? "1440" : resolution`. -/
def res_val (resolution : String) : String :=
  if resolution = "1D" then "1440" else resolution

/-- Per-candle period in milliseconds (`historical_ohlcv.h` line 102):
`res_ms = std::stoll(res_val) * 60 * 1000`. -/
def res_ms (resolution : String) : Int :=
  (parseDigits (res_val resolution).data : Int) * 60 * 1000

/-- Window arithmetic of the fetch loop (`historical_ohlcv.h` line 117):
`current_start_ts = current_end_ts - (batch_size - 1) * res_ms` with the
`batch_size - 1` computed in `size_t` (truncated subtraction). -/
def current_start_ts (current_end_ts : Int) (batch_size : Nat) (resolution : String) : Int :=
  current_end_ts - ((batch_size - 1 : Nat) : Int) * res_ms resolution

/-- Request params built by the fetch loop (`historical_ohlcv.h` lines
128-132); the resolution string placed on the wire is the original
`resolution` argument, not `res_val`. -/
def chart_params (instrument resolution : String) (start_ts end_ts : Int) : String :=
  "\x7b\"instrument_name\":\"" ++ instrument ++ "\","
    ++ "\"resolution\":\"" ++ resolution ++ "\","
    ++ "\"start_timestamp\":" ++ toString start_ts ++ ","
    ++ "\"end_timestamp\":" ++ toString end_ts ++ "\x7d"

/-- Collection loop of `fetch_n_ohlcv` (`historical_ohlcv.h` lines
109-150). The server's behaviour is abstracted as the list of candle
batches delivered by successive answered requests (an RPC error delivers
the empty batch; exhausting the list models the 5-second timeout; a
rate-limit retry changes no state and is invisible). Each iteration
appends the next batch and stops when `n_candles` are collected, when
the wait times out, or when the collected count did not grow
(`out.size() == last_size`). `last_size` always equals `out.length` at
the loop head, as in the source where it is updated to `out.size()`
after every productive iteration. -/
def fetchLoop (n_candles : Nat) : List (List OHLCV) → List OHLCV → Nat → List OHLCV
  | batches, out, last_size =>
    if n_candles ≤ out.length then out
    else
      match batches with
      | [] => out
      | b :: rest =>
        let out' := out ++ b
        if out'.length = last_size then out'
        else fetchLoop n_candles rest out' out'.length

/-- Comparator of the final sort (`historical_ohlcv.h` lines 153-155):
`a.ts_ms < b.ts_ms`; the sorted order it produces is the non-decreasing
`ts_ms` order, modelled with a stable merge sort on `ts_ms ≤`. -/
def ohlcvLE (a b : OHLCV) : Bool := a.ts_ms ≤ b.ts_ms

/-- Embedding of `fetch_n_ohlcv` (`historical_ohlcv.h` lines 84-163)
over the abstracted server batches: run the collection loop starting
from an empty vector and `last_size = 0`, sort chronologically by
`ts_ms`, and when more than `n_candles` were collected erase the first
`size - n_candles` entries (the oldest). -/
def fetch_n_ohlcv (n_candles : Nat) (batches : List (List OHLCV)) : List OHLCV :=
  let out := fetchLoop n_candles batches [] 0
  let sorted := out.mergeSort ohlcvLE
  if n_candles < sorted.length then sorted.drop (sorted.length - n_candles) else sorted

theorem signed_char_to_u32_of_lt {b : Nat} (h : b < 128) : signed_char_to_u32 b = b :=
  if_pos h

theorem foldl_hash_eq_of_ascii (l : List Nat) :
    ∀ acc : Nat, (∀ b ∈ l, b < 128) →
      l.foldl (fun h b => ((h ^^^ signed_char_to_u32 b) * 16777619) % 4294967296) acc
        = l.foldl (fun h b => ((h ^^^ b) * 16777619) % 4294967296) acc := by
  induction l with
  | nil => intro acc _; simp
  | cons x xs ih =>
    intro acc hx
    simp only [List.foldl_cons]
    rw [signed_char_to_u32_of_lt (hx x (by simp))]
    exact ih _ (fun b hb => hx b (by simp [hb]))

/-- C9 (amended): `fast_hash` agrees with the 32-bit FNV-1a hash on every
string all of whose bytes are below 128; for a byte `b ≥ 128` the `char`
is sign-extended by the cast before the xor, so the hashes differ. -/
theorem fast_hash_eq_fnv1a32_of_ascii (bytes : List Nat) (h : ∀ b ∈ bytes, b < 128) :
    fast_hash bytes = fnv1a32 bytes :=
  foldl_hash_eq_of_ascii bytes 2166136261 h

/-- Witness for the amended C9 on the concrete ASCII input `"hi"`
(bytes 104, 105). -/
theorem fast_hash_eq_fnv1a32_of_ascii_witness :
    (∀ b ∈ [104, 105], b < 128) ∧ fast_hash [104, 105] = fnv1a32 [104, 105] :=
  ⟨by decide, fast_hash_eq_fnv1a32_of_ascii [104, 105] (by decide)⟩

/-- Counterexample to C9 as stated: on the single byte `0x80` the source
xors the sign-extended value `0xFFFFFF80` rather than the octet `0x80`,
so `fast_hash` is not the FNV-1a hash of the bytes. -/
theorem fast_hash_ne_fnv1a32_at_byte_128 : fast_hash [128] ≠ fnv1a32 [128] := by
  decide

theorem isPrefixOf_append (p t : List Char) : p.isPrefixOf (p ++ t) = true := by
  induction p with
  | nil => simp [List.isPrefixOf]
  | cons a as ih => simp [List.isPrefixOf, ih]

theorem findSub_nil_pat (s : List Char) : (findSub s []).isSome = true := by
  cases s with
  | nil => simp [findSub]
  | cons x rest => simp [findSub, List.isPrefixOf]

theorem findSub_occurs (p : List Char) : ∀ (a b : List Char), (findSub (a ++ (p ++ b)) p).isSome = true := by
  intro a
  induction a with
  | nil =>
    intro b
    match p with
    | [] => exact findSub_nil_pat b
    | c :: ps =>
      rw [List.nil_append, show (c :: ps) ++ b = c :: (ps ++ b) from rfl]
      unfold findSub
      rw [show c :: (ps ++ b) = (c :: ps) ++ b from rfl, isPrefixOf_append]
      simp
  | cons x xs ih =>
    intro b
    rw [List.cons_append]
    unfold findSub
    cases hp : p.isPrefixOf (x :: (xs ++ (p ++ b)))
    · simp only [hp, Bool.false_eq_true, if_false, Option.isSome_map']
      exact ih b
    · simp [hp]

theorem rfindPos_append_last (c : Char) (l : List Char) : rfindPos c (l ++ [c]) = some l.length := by
  induction l with
  | nil => simp [rfindPos]
  | cons x xs ih => simp [rfindPos, ih]

theorem mkRpcMsg_data_split_brace (id : Nat) (method params : String) :
    (mkRpcMsg id method params).data
      = ("\x7b\"jsonrpc\":\"2.0\",\"id\":" ++ toString id ++ ",\"method\":\"" ++ method
          ++ "\",\"params\":" ++ params).data ++ ['\x7d'] := by
  simp [mkRpcMsg, String.data_append, List.append_assoc]

theorem mkRpcMsg_private_decomp (id : Nat) (rest params : String) :
    (mkRpcMsg id ("private/" ++ rest) params).data
      = ("\x7b\"jsonrpc\":\"2.0\",\"id\":" ++ toString id ++ ",\"method\":").data
          ++ (privatePat ++ (rest ++ "\",\"params\":" ++ params ++ "\x7d").data) := by
  simp [mkRpcMsg, privatePat, String.data_append, List.append_assoc]

/-- C10: the sender classifies a frame as a private RPC by searching the
whole frame text for the substring `"private/` (`msg.find` in
`RequestSender::start`); a frame without that substring is sent
byte-for-byte unchanged, and any frame containing it — wherever the
occurrence lies, e.g. inside the params text of a public method — gets
the token pair inserted before the frame's last closing brace when the
access token is non-empty. -/
theorem sender_classifies_by_substring :
    (∀ (token : String) (msg : List Char), findSub msg privatePat = none →
        inject_token token msg = msg)
    ∧ (∀ (token : String) (msg : List Char) (pos : Nat),
        (findSub msg privatePat).isSome = true → token.isEmpty = false →
        rfindPos '\x7d' msg = some pos →
        inject_token token msg = insertAt msg pos (tokenPair token)) := by
  constructor
  · intro token msg h
    simp [inject_token, h]
  · intro token msg pos h1 h2 h3
    simp only [inject_token, h1, if_true, h2, h3]

/-- Witness for C10: a public-method frame whose params text contains
`"private/` receives the token before its last brace (index 69), and a
frame without the substring is sent unchanged. -/
theorem sender_classifies_by_substring_witness :
    ((findSub (mkRpcMsg 7 "public/ping" "\"private/abc\"").data privatePat).isSome = true
      ∧ ("t" : String).isEmpty = false
      ∧ rfindPos '\x7d' (mkRpcMsg 7 "public/ping" "\"private/abc\"").data = some 69
      ∧ findSub (mkRpcMsg 1 "public/ping" "\x7b\x7d").data privatePat = none)
    ∧ inject_token "t" (mkRpcMsg 7 "public/ping" "\"private/abc\"").data
        = insertAt (mkRpcMsg 7 "public/ping" "\"private/abc\"").data 69 (tokenPair "t")
    ∧ inject_token "t" (mkRpcMsg 1 "public/ping" "\x7b\x7d").data
        = (mkRpcMsg 1 "public/ping" "\x7b\x7d").data :=
  ⟨⟨by decide, by decide, by decide, by decide⟩,
    sender_classifies_by_substring.2 "t" _ 69 (by decide) (by decide) (by decide),
    sender_classifies_by_substring.1 "t" _ (by decide)⟩

/-- Counterexample to C3 as stated: for the private frame
`{"jsonrpc":"2.0","id":1,"method":"private/get_positions","params":{}}`
with token `tok`, the sender's rewrite places the pair after the params
object — the output still contains the untouched text `"params":{},` and
the token pair sits at the top level of the frame, not inside params. -/
theorem sender_token_outside_params_cex :
    inject_token "tok" (mkRpcMsg 1 "private/get_positions" "\x7b\x7d").data
      = ("\x7b\"jsonrpc\":\"2.0\",\"id\":1,\"method\":\"private/get_positions\",\"params\":\x7b\x7d,\"access_token\":\"tok\"\x7d").data
    ∧ (findSub (inject_token "tok" (mkRpcMsg 1 "private/get_positions" "\x7b\x7d").data)
        ("\"params\":\x7b\x7d,").data).isSome = true := by
  constructor
  · decide
  · decide

/-- C3 (amended): for every outbound frame whose method is in the
`private/` namespace, a non-empty access token `t` makes the Sender
insert `,"access_token":"t"` immediately before the frame's last closing
brace — i.e. as a top-level member of the frame following the params
object, not inside params — while an empty token leaves the frame
byte-for-byte unchanged (a warning is logged; logging is outside this
model). -/
theorem sender_private_token_injection (id : Nat) (method params : String)
    (hm : ∃ rest, method = "private/" ++ rest) :
    (∀ token : String, token.isEmpty = false →
        inject_token token (mkRpcMsg id method params).data
          = insertAt (mkRpcMsg id method params).data
              ((mkRpcMsg id method params).data.length - 1) (tokenPair token))
    ∧ (∀ token : String, token.isEmpty = true →
        inject_token token (mkRpcMsg id method params).data = (mkRpcMsg id method params).data) := by
  obtain ⟨rest, hrest⟩ := hm
  subst hrest
  have hfind : (findSub (mkRpcMsg id ("private/" ++ rest) params).data privatePat).isSome = true := by
    rw [mkRpcMsg_private_decomp]
    exact findSub_occurs privatePat _ _
  have hrfind : rfindPos '\x7d' (mkRpcMsg id ("private/" ++ rest) params).data
      = some ((mkRpcMsg id ("private/" ++ rest) params).data.length - 1) := by
    rw [mkRpcMsg_data_split_brace, rfindPos_append_last]
    simp
    omega
  constructor
  · intro token ht
    simp only [inject_token, hfind, if_true, ht, hrfind]
  · intro token ht
    simp [inject_token, ht]

/-- Witness for the amended C3 on the concrete frame
`mkRpcMsg 2 "private/buy" "{}"` with token `tk`. -/
theorem sender_private_token_injection_witness :
    (∃ rest : String, ("private/buy" : String) = "private/" ++ rest)
    ∧ inject_token "tk" (mkRpcMsg 2 "private/buy" "\x7b\x7d").data
        = insertAt (mkRpcMsg 2 "private/buy" "\x7b\x7d").data
            ((mkRpcMsg 2 "private/buy" "\x7b\x7d").data.length - 1) (tokenPair "tk") :=
  ⟨⟨"buy", by decide⟩,
    (sender_private_token_injection 2 "private/buy" "\x7b\x7d" ⟨"buy", by decide⟩).1 "tk" (by decide)⟩

theorem dispatch_rpc_eq (tbl : Nat → RPCHandler) (sub : Nat → Option Nat) (doc : Json) (u : Nat)
    (h : doc.getUint64 "id" = some u) :
    Dispatcher.dispatch tbl sub doc =
      (if errorNonNull doc = true then
        (match (tbl (u &&& (MAX_INFLIGHT - 1))).on_error with
         | some f => [Invocation.failure f (tbl (u &&& (MAX_INFLIGHT - 1))).user_data (rpcErrorMessage doc u)]
         | none => [])
       else
        (match (tbl (u &&& (MAX_INFLIGHT - 1))).on_success with
         | some f => [Invocation.success f (tbl (u &&& (MAX_INFLIGHT - 1))).user_data (rpcSuccessMessage doc u)]
         | none => [])) := by
  cases herr : errorNonNull doc with
  | true => simp [Dispatcher.dispatch, h, rpcBaseMessage, herr]
  | false => simp [Dispatcher.dispatch, h, rpcBaseMessage, herr]

/-- C1 (amended): for an inbound frame carrying an unsigned 64-bit `id`
equal to `u`, `dispatch` selects the continuation by the error status —
`on_error` when the frame has a non-null `error` member, `on_success`
otherwise — and invokes exactly that one continuation of the slot at
`u & (MAX_INFLIGHT-1)` when it is set, and nothing at all when the
selected continuation is null (even if the other continuation of the
slot is set). -/
theorem dispatch_invokes_selected_continuation (tbl : Nat → RPCHandler) (sub : Nat → Option Nat)
    (doc : Json) (u : Nat) (h : doc.getUint64 "id" = some u) :
    (errorNonNull doc = true →
      Dispatcher.dispatch tbl sub doc
        = (match (tbl (u &&& (MAX_INFLIGHT - 1))).on_error with
           | some f => [Invocation.failure f (tbl (u &&& (MAX_INFLIGHT - 1))).user_data (rpcErrorMessage doc u)]
           | none => []))
    ∧ (errorNonNull doc = false →
      Dispatcher.dispatch tbl sub doc
        = (match (tbl (u &&& (MAX_INFLIGHT - 1))).on_success with
           | some f => [Invocation.success f (tbl (u &&& (MAX_INFLIGHT - 1))).user_data (rpcSuccessMessage doc u)]
           | none => [])) := by
  have heq := dispatch_rpc_eq tbl sub doc u h
  constructor
  · intro herr
    rw [heq, if_pos herr]
  · intro herr
    rw [heq, herr]
    simp

/-- Witness for the amended C1: an error frame with `id = 3` dispatched
against a slot registered with both continuations invokes `on_error`
exactly once. -/
theorem dispatch_invokes_selected_continuation_witness :
    (Json.getUint64 (Json.obj [("id", Json.num 3), ("error", Json.obj [("code", Json.num 10009), ("message", Json.str "bad")])]) "id" = some 3)
    ∧ Dispatcher.dispatch
        (Dispatcher.register_rpc (fun _ => {}) 3 (some 1) (some 2) 5)
        (fun _ => none)
        (Json.obj [("id", Json.num 3), ("error", Json.obj [("code", Json.num 10009), ("message", Json.str "bad")])])
      = [Invocation.failure 2 5 (rpcErrorMessage (Json.obj [("id", Json.num 3), ("error", Json.obj [("code", Json.num 10009), ("message", Json.str "bad")])]) 3)] :=
  ⟨by rfl,
    by
      have := (dispatch_invokes_selected_continuation
        (Dispatcher.register_rpc (fun _ => {}) 3 (some 1) (some 2) 5)
        (fun _ => none)
        (Json.obj [("id", Json.num 3), ("error", Json.obj [("code", Json.num 10009), ("message", Json.str "bad")])])
        3 (by rfl)).1 (by rfl)
      simpa using this⟩

/-- Counterexample to C1 as stated: the slot for `id = 7` has a
continuation set (`on_success`), the frame carries a non-null `error`,
yet `dispatch` invokes neither continuation — the error path only calls
`on_error`, which is null here. -/
theorem dispatch_drops_error_without_handler_cex :
    ((Dispatcher.register_rpc (fun _ => {}) 7 (some 1) none 0) (7 &&& (MAX_INFLIGHT - 1))).on_success = some 1
    ∧ Json.getUint64 (Json.obj [("id", Json.num 7), ("error", Json.obj [("code", Json.num 13009)])]) "id" = some 7
    ∧ errorNonNull (Json.obj [("id", Json.num 7), ("error", Json.obj [("code", Json.num 13009)])]) = true
    ∧ Dispatcher.dispatch (Dispatcher.register_rpc (fun _ => {}) 7 (some 1) none 0) (fun _ => none)
        (Json.obj [("id", Json.num 7), ("error", Json.obj [("code", Json.num 13009)])]) = [] :=
  ⟨by rfl, by rfl, by rfl, by rfl⟩

/-- C7 (amended): an RPC response frame with neither a `result` member
nor a non-null `error` member is not ignored — `dispatch` invokes the
slot's `on_success` continuation (when set) with a message whose
`result` view and `access_token` are empty, after consuming the timing
fields. -/
theorem dispatch_no_result_calls_on_success (tbl : Nat → RPCHandler) (sub : Nat → Option Nat)
    (doc : Json) (u : Nat) (hid : doc.getUint64 "id" = some u)
    (herr : errorNonNull doc = false) (hres : doc.find? "result" = none) :
    Dispatcher.dispatch tbl sub doc
      = (match (tbl (u &&& (MAX_INFLIGHT - 1))).on_success with
         | some f => [Invocation.success f (tbl (u &&& (MAX_INFLIGHT - 1))).user_data (rpcSuccessMessage doc u)]
         | none => [])
    ∧ (rpcSuccessMessage doc u).result = none
    ∧ (rpcSuccessMessage doc u).access_token = "" := by
  refine ⟨(dispatch_invokes_selected_continuation tbl sub doc u hid).2 herr, ?_, ?_⟩
  · simp [rpcSuccessMessage, hres, rpcBaseMessage]
  · simp [rpcSuccessMessage, hres, rpcBaseMessage]

/-- Witness for the amended C7: a frame with `id = 7`, a `usIn` timing
field and no `result`/`error` members invokes the registered
`on_success` once, with an empty result view. -/
theorem dispatch_no_result_calls_on_success_witness :
    (Json.getUint64 (Json.obj [("id", Json.num 7), ("usIn", Json.num 11)]) "id" = some 7
      ∧ errorNonNull (Json.obj [("id", Json.num 7), ("usIn", Json.num 11)]) = false
      ∧ (Json.obj [("id", Json.num 7), ("usIn", Json.num 11)]).find? "result" = none)
    ∧ (Dispatcher.dispatch (Dispatcher.register_rpc (fun _ => {}) 7 (some 4) none 9) (fun _ => none)
          (Json.obj [("id", Json.num 7), ("usIn", Json.num 11)])
        = [Invocation.success 4 9 (rpcSuccessMessage (Json.obj [("id", Json.num 7), ("usIn", Json.num 11)]) 7)]
      ∧ (rpcSuccessMessage (Json.obj [("id", Json.num 7), ("usIn", Json.num 11)]) 7).result = none
      ∧ (rpcSuccessMessage (Json.obj [("id", Json.num 7), ("usIn", Json.num 11)]) 7).access_token = "") :=
  ⟨⟨by rfl, by rfl, by rfl⟩,
    by
      have := dispatch_no_result_calls_on_success
        (Dispatcher.register_rpc (fun _ => {}) 7 (some 4) none 9) (fun _ => none)
        (Json.obj [("id", Json.num 7), ("usIn", Json.num 11)]) 7 (by rfl) (by rfl) (by rfl)
      simpa using this⟩

/-- Counterexample to C7 as stated: a response with `id = 7` and neither
`result` nor `error` members still performs one handler invocation (the
registered `on_success`), rather than being ignored. -/
theorem dispatch_calls_on_success_without_result_cex :
    Json.getUint64 (Json.obj [("id", Json.num 7), ("usIn", Json.num 11)]) "id" = some 7
    ∧ (Json.obj [("id", Json.num 7), ("usIn", Json.num 11)]).find? "result" = none
    ∧ (Json.obj [("id", Json.num 7), ("usIn", Json.num 11)]).find? "error" = none
    ∧ (Dispatcher.dispatch (Dispatcher.register_rpc (fun _ => {}) 7 (some 2) none 0) (fun _ => none)
        (Json.obj [("id", Json.num 7), ("usIn", Json.num 11)])).length = 1 :=
  ⟨by rfl, by rfl, by rfl, by rfl⟩

theorem allow_request_step (s : RateLimiter) (t : ℚ)
    (h0 : 0 ≤ s.tokens) (h2 : s.last_refill ≤ t) :
    0 ≤ (s.allow_request t).2.tokens
    ∧ (s.allow_request t).2.tokens ≤ MAX_TOKENS
    ∧ (s.allow_request t).2.last_refill = t
    ∧ (s.allow_request t).2.tokens + (if (s.allow_request t).1 then (1 : ℚ) else 0)
        ≤ s.tokens + REFILL_RATE * (t - s.last_refill) := by
  have heq : s.allow_request t
      = (if 1 ≤ min MAX_TOKENS (s.tokens + REFILL_RATE * (t - s.last_refill))
         then (true, ⟨min MAX_TOKENS (s.tokens + REFILL_RATE * (t - s.last_refill)) - 1, t⟩)
         else (false, ⟨min MAX_TOKENS (s.tokens + REFILL_RATE * (t - s.last_refill)), t⟩)) := rfl
  have he : (0 : ℚ) ≤ REFILL_RATE * (t - s.last_refill) := by
    have h4 : (0 : ℚ) ≤ t - s.last_refill := by linarith
    have h5 : (0 : ℚ) ≤ REFILL_RATE := by norm_num [REFILL_RATE]
    positivity
  have hmaxpos : (0 : ℚ) ≤ MAX_TOKENS := by norm_num [MAX_TOKENS]
  have hminle := min_le_left MAX_TOKENS (s.tokens + REFILL_RATE * (t - s.last_refill))
  have hminle2 := min_le_right MAX_TOKENS (s.tokens + REFILL_RATE * (t - s.last_refill))
  have hminge : (0 : ℚ) ≤ min MAX_TOKENS (s.tokens + REFILL_RATE * (t - s.last_refill)) :=
    le_min hmaxpos (by linarith)
  by_cases hc : (1 : ℚ) ≤ min MAX_TOKENS (s.tokens + REFILL_RATE * (t - s.last_refill))
  · rw [heq, if_pos hc]
    refine ⟨by dsimp only; linarith, by dsimp only; linarith, rfl, ?_⟩
    dsimp only
    rw [if_pos rfl]
    linarith
  · rw [heq, if_neg hc]
    refine ⟨by dsimp only; linarith, by dsimp only; linarith, rfl, ?_⟩
    dsimp only
    rw [if_neg (by simp)]
    linarith

theorem chain_take {α : Type} {r : α → α → Prop} :
    ∀ (l : List α) (a : α), List.Chain r a l → ∀ n : Nat, List.Chain r a (l.take n)
  | [], a, _, n => by simp
  | x :: xs, a, h, 0 => by simp
  | x :: xs, a, h, n + 1 => by
    rw [List.chain_cons] at h
    simp only [List.take_succ_cons]
    exact List.chain_cons.mpr ⟨h.1, chain_take xs x h.2 n⟩

theorem run_bound : ∀ (ts : List ℚ) (s : RateLimiter), 0 ≤ s.tokens → s.tokens ≤ MAX_TOKENS →
    List.Chain (· ≤ ·) s.last_refill ts →
    0 ≤ (RateLimiter.run s ts).2.tokens
    ∧ (RateLimiter.run s ts).2.tokens ≤ MAX_TOKENS
    ∧ (RateLimiter.run s ts).2.last_refill = ts.getLastD s.last_refill
    ∧ ((RateLimiter.run s ts).1 : ℚ) + (RateLimiter.run s ts).2.tokens
        ≤ s.tokens + REFILL_RATE * (ts.getLastD s.last_refill - s.last_refill)
  | [], s, h0, h1, _ => by
    refine ⟨h0, h1, rfl, ?_⟩
    simp [RateLimiter.run]
  | t :: ts, s, h0, h1, hch => by
    rw [List.chain_cons] at hch
    obtain ⟨hle, hch'⟩ := hch
    have hstep := allow_request_step s t h0 hle
    have hch2 : List.Chain (· ≤ ·) (s.allow_request t).2.last_refill ts := by
      rw [hstep.2.2.1]; exact hch'
    have ih := run_bound ts (s.allow_request t).2 hstep.1 hstep.2.1 hch2
    have hrun : RateLimiter.run s (t :: ts)
        = ((RateLimiter.run (s.allow_request t).2 ts).1
              + (if (s.allow_request t).1 then 1 else 0),
           (RateLimiter.run (s.allow_request t).2 ts).2) := rfl
    rw [hrun]
    refine ⟨ih.1, ih.2.1, ?_, ?_⟩
    · rw [List.getLastD_cons, ih.2.2.1, hstep.2.2.1]
    · have hbound := ih.2.2.2
      rw [hstep.2.2.1] at hbound
      have hstepb := hstep.2.2.2
      rw [List.getLastD_cons]
      dsimp only
      by_cases hb : (s.allow_request t).1 = true
      · simp only [hb, if_pos] at hstepb ⊢
        push_cast
        linarith
      · simp only [Bool.not_eq_true] at hb
        simp only [hb, Bool.false_eq_true, if_false] at hstepb ⊢
        push_cast
        linarith

/-- C5: starting from a freshly constructed (full) bucket whose
construction time `tc` precedes the first call, for monotonically
non-decreasing call times `t0 :: ts` the number of admitted calls is at
most `MAX_TOKENS + REFILL_RATE * (tk - t0)` (with `tk` the last call
time), and after every call the token balance satisfies
`0 ≤ tokens ≤ MAX_TOKENS`. The `double` arithmetic of the source is
modelled exactly over `ℚ`. -/
theorem rate_limiter_admission_bound (tc t0 : ℚ) (ts : List ℚ)
    (hch : List.Chain (· ≤ ·) tc (t0 :: ts)) :
    ((RateLimiter.run ⟨MAX_TOKENS, tc⟩ (t0 :: ts)).1 : ℚ)
        ≤ MAX_TOKENS + REFILL_RATE * ((t0 :: ts).getLastD t0 - t0)
    ∧ (∀ n : Nat, 0 ≤ (RateLimiter.run ⟨MAX_TOKENS, tc⟩ ((t0 :: ts).take n)).2.tokens
        ∧ (RateLimiter.run ⟨MAX_TOKENS, tc⟩ ((t0 :: ts).take n)).2.tokens ≤ MAX_TOKENS) := by
  have hch0 := hch
  rw [List.chain_cons] at hch0
  obtain ⟨hle, hch'⟩ := hch0
  constructor
  · have hfirst : (⟨MAX_TOKENS, tc⟩ : RateLimiter).allow_request t0 = (true, ⟨MAX_TOKENS - 1, t0⟩) := by
      have heq : (⟨MAX_TOKENS, tc⟩ : RateLimiter).allow_request t0
          = (if 1 ≤ min MAX_TOKENS (MAX_TOKENS + REFILL_RATE * (t0 - tc))
             then (true, ⟨min MAX_TOKENS (MAX_TOKENS + REFILL_RATE * (t0 - tc)) - 1, t0⟩)
             else (false, ⟨min MAX_TOKENS (MAX_TOKENS + REFILL_RATE * (t0 - tc)), t0⟩)) := rfl
      have hrm : (0 : ℚ) ≤ REFILL_RATE * (t0 - tc) := by
        have h4 : (0 : ℚ) ≤ t0 - tc := by linarith
        have h5 : (0 : ℚ) ≤ REFILL_RATE := by norm_num [REFILL_RATE]
        positivity
      have hmin : min MAX_TOKENS (MAX_TOKENS + REFILL_RATE * (t0 - tc)) = MAX_TOKENS :=
        min_eq_left (by linarith)
      rw [heq, hmin, if_pos (by norm_num [MAX_TOKENS])]
    have hrun : RateLimiter.run ⟨MAX_TOKENS, tc⟩ (t0 :: ts)
        = ((RateLimiter.run ((⟨MAX_TOKENS, tc⟩ : RateLimiter).allow_request t0).2 ts).1
              + (if ((⟨MAX_TOKENS, tc⟩ : RateLimiter).allow_request t0).1 then 1 else 0),
           (RateLimiter.run ((⟨MAX_TOKENS, tc⟩ : RateLimiter).allow_request t0).2 ts).2) := rfl
    rw [hrun, hfirst]
    simp only [if_pos]
    have hb := run_bound ts ⟨MAX_TOKENS - 1, t0⟩ (by norm_num [MAX_TOKENS])
      (by norm_num [MAX_TOKENS]) hch'
    have h1 := hb.1
    have h2 := hb.2.2.2
    rw [List.getLastD_cons]
    push_cast
    simp only at h1 h2
    linarith
  · intro n
    have hchn : List.Chain (· ≤ ·) tc ((t0 :: ts).take n) := chain_take _ _ hch n
    have hb := run_bound ((t0 :: ts).take n) ⟨MAX_TOKENS, tc⟩ (by norm_num [MAX_TOKENS]) le_rfl hchn
    exact ⟨hb.1, hb.2.1⟩

/-- Witness for C5 at construction time 0 and call times `[0, 1]`. -/
theorem rate_limiter_admission_bound_witness :
    List.Chain (· ≤ ·) (0 : ℚ) ((0 : ℚ) :: [1])
    ∧ (((RateLimiter.run ⟨MAX_TOKENS, 0⟩ ((0 : ℚ) :: [1])).1 : ℚ)
          ≤ MAX_TOKENS + REFILL_RATE * (((0 : ℚ) :: [1]).getLastD 0 - 0)
        ∧ (∀ n : Nat, 0 ≤ (RateLimiter.run ⟨MAX_TOKENS, 0⟩ (((0 : ℚ) :: [1]).take n)).2.tokens
            ∧ (RateLimiter.run ⟨MAX_TOKENS, 0⟩ (((0 : ℚ) :: [1]).take n)).2.tokens ≤ MAX_TOKENS)) :=
  ⟨List.Chain.cons (by norm_num) (List.Chain.cons (by norm_num) List.Chain.nil),
    rate_limiter_admission_bound 0 0 [1]
      (List.Chain.cons (by norm_num) (List.Chain.cons (by norm_num) List.Chain.nil))⟩

theorem ohlcvLE_trans : ∀ (a b c : OHLCV), ohlcvLE a b → ohlcvLE b c → ohlcvLE a c := by
  intro a b c hab hbc
  simp only [ohlcvLE, decide_eq_true_eq] at *
  omega

theorem ohlcvLE_total : ∀ (a b : OHLCV), ohlcvLE a b || ohlcvLE b a := by
  intro a b
  simp only [ohlcvLE]
  rcases Int.le_total a.ts_ms b.ts_ms with h | h <;> simp [h]

/-- C2: for every candle target `n` and sequence of server batches, the
vector returned by `fetch_n_ohlcv` is sorted by `ts_ms` ascending, has
length `min n collected` (exactly `n` unless fewer than `n` candles were
collected), equals the suffix of the chronologically sorted collected
candles obtained by dropping the `collected - n` oldest entries, and
every dropped candle is no newer than every returned candle. -/
theorem fetch_n_ohlcv_spec (n : Nat) (batches : List (List OHLCV)) :
    List.Pairwise (fun a b : OHLCV => a.ts_ms ≤ b.ts_ms) (fetch_n_ohlcv n batches)
    ∧ (fetch_n_ohlcv n batches).length = min n (fetchLoop n batches [] 0).length
    ∧ fetch_n_ohlcv n batches
        = ((fetchLoop n batches [] 0).mergeSort ohlcvLE).drop
            ((fetchLoop n batches [] 0).length - n)
    ∧ ∀ a ∈ ((fetchLoop n batches [] 0).mergeSort ohlcvLE).take
          ((fetchLoop n batches [] 0).length - n),
        ∀ b ∈ fetch_n_ohlcv n batches, a.ts_ms ≤ b.ts_ms := by
  have hlen : ((fetchLoop n batches [] 0).mergeSort ohlcvLE).length
      = (fetchLoop n batches [] 0).length := List.length_mergeSort _
  have hpwb : ((fetchLoop n batches [] 0).mergeSort ohlcvLE).Pairwise
      (fun a b => ohlcvLE a b) :=
    List.sorted_mergeSort ohlcvLE_trans ohlcvLE_total _
  have hpw : ((fetchLoop n batches [] 0).mergeSort ohlcvLE).Pairwise
      (fun a b : OHLCV => a.ts_ms ≤ b.ts_ms) := by
    refine hpwb.imp ?_
    intro a b h
    simpa [ohlcvLE, decide_eq_true_eq] using h
  have hfetch : fetch_n_ohlcv n batches
      = (if n < ((fetchLoop n batches [] 0).mergeSort ohlcvLE).length
         then ((fetchLoop n batches [] 0).mergeSort ohlcvLE).drop
                (((fetchLoop n batches [] 0).mergeSort ohlcvLE).length - n)
         else (fetchLoop n batches [] 0).mergeSort ohlcvLE) := rfl
  have hdrop : fetch_n_ohlcv n batches
      = ((fetchLoop n batches [] 0).mergeSort ohlcvLE).drop
          ((fetchLoop n batches [] 0).length - n) := by
    rw [hfetch]
    by_cases hc : n < ((fetchLoop n batches [] 0).mergeSort ohlcvLE).length
    · rw [if_pos hc, hlen]
    · rw [if_neg hc]
      have : (fetchLoop n batches [] 0).length - n = 0 := by omega
      rw [this, List.drop_zero]
  refine ⟨?_, ?_, hdrop, ?_⟩
  · rw [hdrop]
    exact hpw.sublist (List.drop_sublist _ _)
  · rw [hdrop, List.length_drop, hlen]
    omega
  · intro a ha b hb
    rw [hdrop] at hb
    have hsplit := List.take_append_drop ((fetchLoop n batches [] 0).length - n)
      ((fetchLoop n batches [] 0).mergeSort ohlcvLE)
    have hpw2 := hpw
    rw [← hsplit] at hpw2
    exact (List.pairwise_append.mp hpw2).2.2 a ha b hb

/-- C8: the per-candle period used in the window arithmetic is
86,400,000 ms for resolution `"1D"` (via the internal rewrite to
`"1440"`) and `minutes * 60,000` ms for `"1"`, `"5"`, `"15"`, `"60"`;
the window start is `end - (batch-1) * period`; and the resolution
string placed in the request params remains the literal `"1D"`. -/
theorem resolution_periods_and_wire_literal :
    res_ms "1D" = 86400000
    ∧ res_ms "1" = 60000 ∧ res_ms "5" = 300000 ∧ res_ms "15" = 900000 ∧ res_ms "60" = 3600000
    ∧ (∀ (e : Int) (b : Nat), current_start_ts e b "1D" = e - ((b - 1 : Nat) : Int) * 86400000)
    ∧ (∀ (instrument : String) (a b : Int), (chart_params instrument "1D" a b).data
        = ("\x7b\"instrument_name\":\"").data ++ instrument.data
          ++ ("\",\"resolution\":\"1D\",\"start_timestamp\":").data ++ (toString a).data
          ++ (",\"end_timestamp\":").data ++ (toString b).data ++ ("\x7d").data) := by
  refine ⟨by decide, by decide, by decide, by decide, by decide, ?_, ?_⟩
  · intro e b
    rw [current_start_ts, show res_ms "1D" = 86400000 from by decide]
  · intro instrument a b
    simp [chart_params, String.data_append, List.append_assoc]

theorem mask_eq_mod {N k : Nat} (hN : N = 2 ^ k) (x : Nat) : x &&& (N - 1) = x % N := by
  subst hN
  exact Nat.and_pow_two_sub_one_eq_mod x k

theorem toList_length {T : Type} {N : Nat} (s : SPSCQueue T N) (ht : s.tail < N) :
    s.toList.length = if s.tail ≤ s.head then s.head - s.tail else s.head + N - s.tail := by
  unfold SPSCQueue.toList
  split_ifs with h
  · simp
  · simp
    omega

theorem toList_length_le {T : Type} {N k : Nat} (hN : N = 2 ^ k) (s : SPSCQueue T N)
    (hh : s.head < N) (ht : s.tail < N) : s.toList.length ≤ N - 1 := by
  rw [toList_length s ht]
  split_ifs <;> omega

theorem push_eq {T : Type} {N k : Nat} (hN : N = 2 ^ k) (s : SPSCQueue T N) (v : T) :
    s.push v = if (s.head + 1) % N = s.tail then (false, s)
      else (true, ⟨Function.update s.buffer s.head v, (s.head + 1) % N, s.tail⟩) := by
  simp only [SPSCQueue.push, mask_eq_mod hN]

theorem pop_eq {T : Type} {N k : Nat} (hN : N = 2 ^ k) (s : SPSCQueue T N) :
    s.pop = if s.tail = s.head then (none, s)
      else (some (s.buffer s.tail), ⟨s.buffer, s.head, (s.tail + 1) % N⟩) := by
  simp only [SPSCQueue.pop, mask_eq_mod hN]

theorem push_false_iff {T : Type} {N k : Nat} (hN : N = 2 ^ k) (s : SPSCQueue T N) (v : T)
    (hh : s.head < N) (ht : s.tail < N) :
    (s.push v).1 = false ↔ s.toList.length = N - 1 := by
  have hN0 : 0 < N := by rw [hN]; exact Nat.two_pow_pos k
  rw [push_eq hN, toList_length s ht]
  by_cases hE : s.head + 1 = N
  · rw [show (s.head + 1) % N = 0 by rw [hE, Nat.mod_self]]
    split_ifs with hc ht' <;> simp_all <;> omega
  · rw [Nat.mod_eq_of_lt (by omega)]
    split_ifs with hc ht' <;> simp_all <;> omega

theorem push_false_state {T : Type} {N k : Nat} (hN : N = 2 ^ k) (s : SPSCQueue T N) (v : T) :
    (s.push v).1 = false → (s.push v).2 = s := by
  rw [push_eq hN]
  split_ifs with hc
  · intro _; rfl
  · intro h; simp at h

theorem push_true_toList {T : Type} {N k : Nat} (hN : N = 2 ^ k) (s : SPSCQueue T N) (v : T)
    (hh : s.head < N) (ht : s.tail < N) (hok : (s.push v).1 = true) :
    (s.push v).2.toList = s.toList ++ [v]
    ∧ (s.push v).2.head < N ∧ (s.push v).2.tail < N := by
  have hN0 : 0 < N := by rw [hN]; exact Nat.two_pow_pos k
  obtain ⟨bf, hd, tl⟩ := s
  rw [push_eq hN] at hok ⊢
  dsimp only at hh ht hok ⊢
  by_cases hc : (hd + 1) % N = tl
  · rw [if_pos hc] at hok; simp at hok
  · rw [if_neg hc] at hok ⊢
    dsimp only
    refine ⟨?_, Nat.mod_lt _ hN0, ht⟩
    by_cases hE : hd + 1 = N
    · have hnext : (hd + 1) % N = 0 := by rw [hE, Nat.mod_self]
      rw [hnext] at hc ⊢
      unfold SPSCQueue.toList
      dsimp only
      rw [if_neg (by omega), if_pos (by omega)]
      simp only [List.range_zero, List.map_nil, List.append_nil]
      rw [show N - tl = (hd - tl) + 1 by omega, List.range_succ, List.map_append]
      congr 1
      · refine List.map_congr_left ?_
        intro i hi
        rw [List.mem_range] at hi
        have hne : tl + i ≠ hd := by omega
        exact Function.update_noteq hne v bf
      · simp only [List.map_cons, List.map_nil]
        rw [show tl + (hd - tl) = hd by omega, Function.update_same]
    · have hlt : hd + 1 < N := by omega
      have hnext : (hd + 1) % N = hd + 1 := Nat.mod_eq_of_lt hlt
      rw [hnext] at hc ⊢
      unfold SPSCQueue.toList
      dsimp only
      by_cases hth : tl ≤ hd
      · rw [if_pos (by omega), if_pos hth]
        rw [show hd + 1 - tl = (hd - tl) + 1 by omega, List.range_succ, List.map_append]
        congr 1
        · refine List.map_congr_left ?_
          intro i hi
          rw [List.mem_range] at hi
          have hne : tl + i ≠ hd := by omega
          exact Function.update_noteq hne v bf
        · simp only [List.map_cons, List.map_nil]
          rw [show tl + (hd - tl) = hd by omega, Function.update_same]
      · have htgt : hd + 1 < tl := by omega
        rw [if_neg (by omega), if_neg (by omega)]
        rw [List.range_succ, List.map_append, List.append_assoc]
        congr 1
        · refine List.map_congr_left ?_
          intro i hi
          rw [List.mem_range] at hi
          have hne : tl + i ≠ hd := by omega
          exact Function.update_noteq hne v bf
        · congr 1
          · refine List.map_congr_left ?_
            intro i hi
            rw [List.mem_range] at hi
            have hne : i ≠ hd := by omega
            exact Function.update_noteq hne v bf
          · simp only [List.map_cons, List.map_nil]
            rw [Function.update_same]

theorem toList_empty_iff {T : Type} {N : Nat} (s : SPSCQueue T N) (hh : s.head < N)
    (ht : s.tail < N) : s.toList = [] ↔ s.tail = s.head := by
  unfold SPSCQueue.toList
  split_ifs with hth
  · constructor
    · intro h
      have := congrArg List.length h
      simp at this
      omega
    · intro h
      rw [h]
      simp
  · constructor
    · intro h
      have := congrArg List.length h
      simp at this
      omega
    · intro h
      omega

theorem toList_cons_pop {T : Type} {N k : Nat} (hN : N = 2 ^ k) (s : SPSCQueue T N)
    (hh : s.head < N) (ht : s.tail < N) (hne : s.tail ≠ s.head) :
    s.toList = s.buffer s.tail
      :: SPSCQueue.toList (⟨s.buffer, s.head, (s.tail + 1) % N⟩ : SPSCQueue T N) := by
  have hN0 : 0 < N := by rw [hN]; exact Nat.two_pow_pos k
  obtain ⟨bf, hd, tl⟩ := s
  dsimp only at hh ht hne ⊢
  unfold SPSCQueue.toList
  dsimp only
  by_cases hth : tl ≤ hd
  · have htlt : tl < hd := by omega
    have hmod : (tl + 1) % N = tl + 1 := Nat.mod_eq_of_lt (by omega)
    rw [hmod, if_pos hth, if_pos (by omega)]
    rw [show hd - tl = (hd - (tl + 1)) + 1 by omega, List.range_succ_eq_map]
    simp only [List.map_cons, List.map_map, Nat.add_zero]
    congr 1
    refine List.map_congr_left ?_
    intro i hi
    simp only [Function.comp_apply]
    congr 1
    omega
  · have htgt : hd < tl := by omega
    by_cases hE : tl + 1 = N
    · have hmod : (tl + 1) % N = 0 := by rw [hE, Nat.mod_self]
      rw [hmod, if_neg hth, if_pos (Nat.zero_le _)]
      rw [show N - tl = 1 by omega, show List.range 1 = [0] from rfl]
      simp only [List.map_cons, List.map_nil, List.cons_append, List.nil_append,
        Nat.add_zero, Nat.sub_zero]
      congr 1
      refine List.map_congr_left ?_
      intro i hi
      simp
    · have hmod : (tl + 1) % N = tl + 1 := Nat.mod_eq_of_lt (by omega)
      rw [hmod, if_neg hth, if_neg (by omega)]
      rw [show N - tl = (N - (tl + 1)) + 1 by omega, List.range_succ_eq_map]
      simp only [List.map_cons, List.map_map, Nat.add_zero, List.cons_append]
      congr 1
      congr 1
      refine List.map_congr_left ?_
      intro i hi
      simp only [Function.comp_apply]
      congr 1
      omega

theorem pop_spec {T : Type} {N k : Nat} (hN : N = 2 ^ k) (s : SPSCQueue T N)
    (hh : s.head < N) (ht : s.tail < N) :
    (s.pop).1 = s.toList.head?
    ∧ (s.pop).2.toList = s.toList.tail
    ∧ (s.pop).2.head < N ∧ (s.pop).2.tail < N := by
  have hN0 : 0 < N := by rw [hN]; exact Nat.two_pow_pos k
  rw [pop_eq hN]
  by_cases hc : s.tail = s.head
  · rw [if_pos hc]
    have hnil : s.toList = [] := (toList_empty_iff s hh ht).mpr hc
    rw [hnil]
    exact ⟨rfl, rfl, hh, ht⟩
  · rw [if_neg hc]
    have hcons := toList_cons_pop hN s hh ht hc
    rw [hcons]
    exact ⟨rfl, rfl, hh, Nat.mod_lt _ hN0⟩


theorem runOps_sim {T : Type} {N k : Nat} (hN : N = 2 ^ k) :
    ∀ (ops : List (QOp T)) (s : SPSCQueue T N), s.head < N → s.tail < N →
    (SPSCQueue.runOps s ops).2 = (fifoRun (N - 1) s.toList ops).2
    ∧ (SPSCQueue.runOps s ops).1.toList = (fifoRun (N - 1) s.toList ops).1
    ∧ (SPSCQueue.runOps s ops).1.head < N ∧ (SPSCQueue.runOps s ops).1.tail < N
  | [], s, hh, ht => ⟨rfl, rfl, hh, ht⟩
  | .push v :: ops, s, hh, ht => by
    have hrun : SPSCQueue.runOps s (.push v :: ops)
        = ((SPSCQueue.runOps (s.push v).2 ops).1,
           .pushed (s.push v).1 :: (SPSCQueue.runOps (s.push v).2 ops).2) := rfl
    have hfifo : fifoRun (N - 1) s.toList (.push v :: ops)
        = ((fifoRun (N - 1) (fifoStep (N - 1) s.toList (.push v)).1 ops).1,
           (fifoStep (N - 1) s.toList (.push v)).2
             :: (fifoRun (N - 1) (fifoStep (N - 1) s.toList (.push v)).1 ops).2) := rfl
    rw [hrun, hfifo]
    by_cases hfull : s.toList.length = N - 1
    · have hb : (s.push v).1 = false := (push_false_iff hN s v hh ht).mpr hfull
      have hst : (s.push v).2 = s := push_false_state hN s v hb
      have hstep : fifoStep (N - 1) s.toList (.push v) = (s.toList, .pushed false) := by
        simp only [fifoStep]
        rw [if_pos hfull]
      rw [hstep, hb, hst]
      have ih := runOps_sim hN ops s hh ht
      exact ⟨by rw [ih.1], ih.2.1, ih.2.2⟩
    · have hb : (s.push v).1 = true := by
        cases hb2 : (s.push v).1
        · exact absurd ((push_false_iff hN s v hh ht).mp hb2) hfull
        · rfl
      have hpush := push_true_toList hN s v hh ht hb
      have hstep : fifoStep (N - 1) s.toList (.push v) = (s.toList ++ [v], .pushed true) := by
        simp only [fifoStep]
        rw [if_neg hfull]
      rw [hstep, hb]
      have ih := runOps_sim hN ops (s.push v).2 hpush.2.1 hpush.2.2
      rw [hpush.1] at ih
      exact ⟨by rw [ih.1], ih.2.1, ih.2.2⟩
  | .pop :: ops, s, hh, ht => by
    have hrun : SPSCQueue.runOps s (.pop :: ops)
        = ((SPSCQueue.runOps (s.pop).2 ops).1,
           .popped (s.pop).1 :: (SPSCQueue.runOps (s.pop).2 ops).2) := rfl
    have hfifo : fifoRun (N - 1) s.toList (.pop :: ops)
        = ((fifoRun (N - 1) (fifoStep (N - 1) s.toList .pop).1 ops).1,
           (fifoStep (N - 1) s.toList .pop).2
             :: (fifoRun (N - 1) (fifoStep (N - 1) s.toList .pop).1 ops).2) := rfl
    rw [hrun, hfifo]
    have hpop := pop_spec hN s hh ht
    have ih := runOps_sim hN ops (s.pop).2 hpop.2.2.1 hpop.2.2.2
    cases hl : s.toList with
    | nil =>
      have hstep : fifoStep (N - 1) ([] : List T) .pop = ([], .popped none) := rfl
      have h1 : (s.pop).1 = none := by rw [hpop.1, hl]; rfl
      have h2 : (s.pop).2.toList = [] := by rw [hpop.2.1, hl]; rfl
      rw [hstep, h1]
      rw [h2] at ih
      exact ⟨by rw [ih.1], ih.2.1, ih.2.2⟩
    | cons x xs =>
      have hstep : fifoStep (N - 1) (x :: xs) .pop = (xs, .popped (some x)) := rfl
      have h1 : (s.pop).1 = some x := by rw [hpop.1, hl]; rfl
      have h2 : (s.pop).2.toList = xs := by rw [hpop.2.1, hl]; rfl
      rw [hstep, h1]
      rw [h2] at ih
      exact ⟨by rw [ih.1], ih.2.1, ih.2.2⟩

/-- C4: for every sequence of push and pop operations on a fresh
`SPSCQueue` of capacity `N = 2^k`, the observed results (push booleans
and pop options) coincide with those of a FIFO holding at most `N-1`
elements: push fails exactly when `N-1` elements are stored (storing
nothing), pop returns the oldest element or `none` when empty, elements
come out in push order with no loss, and after every prefix of the
operations at most `N-1` elements are stored. -/
theorem spsc_queue_fifo (k : Nat) (T : Type) (b0 : Nat → T) (ops : List (QOp T)) :
    (SPSCQueue.runOps (⟨b0, 0, 0⟩ : SPSCQueue T (2 ^ k)) ops).2
        = (fifoRun (2 ^ k - 1) [] ops).2
    ∧ (SPSCQueue.runOps (⟨b0, 0, 0⟩ : SPSCQueue T (2 ^ k)) ops).1.toList
        = (fifoRun (2 ^ k - 1) [] ops).1
    ∧ ∀ n : Nat, (SPSCQueue.runOps (⟨b0, 0, 0⟩ : SPSCQueue T (2 ^ k)) (ops.take n)).1.toList.length
        ≤ 2 ^ k - 1 := by
  have hN0 : 0 < 2 ^ k := Nat.two_pow_pos k
  have hnil : (⟨b0, 0, 0⟩ : SPSCQueue T (2 ^ k)).toList = [] := by
    unfold SPSCQueue.toList
    simp
  have h := runOps_sim rfl ops (⟨b0, 0, 0⟩ : SPSCQueue T (2 ^ k)) hN0 hN0
  rw [hnil] at h
  refine ⟨h.1, h.2.1, ?_⟩
  intro n
  have h2 := runOps_sim rfl (ops.take n) (⟨b0, 0, 0⟩ : SPSCQueue T (2 ^ k)) hN0 hN0
  exact toList_length_le rfl _ h2.2.2.1 h2.2.2.2

theorem send_rpc_eq (c : DeribitClient) (now : ℚ) (id : Nat) (method params : String) :
    c.send_rpc now id method params
      = (if (c.rate_limiter.allow_request now).1 = false
         then (false, { c with rate_limiter := (c.rate_limiter.allow_request now).2 })
         else (true, ⟨(c.rate_limiter.allow_request now).2,
                (c.outbound_queue.push (mkRpcMsg id method params)).2⟩)) := rfl

/-- C6 (amended): `send_rpc` returns `false` exactly when the rate gate
denies, and then enqueues nothing; when the gate admits, the formatted
frame is pushed onto the outbound queue when it has space and the call
returns `true`; when the outbound queue is full the frame is dropped
silently — `push`'s `false` result is discarded and the call still
returns `true`, so the caller does not observe the drop. -/
theorem send_rpc_gate_and_enqueue (c : DeribitClient) (now : ℚ) (id : Nat) (method params : String)
    (hh : c.outbound_queue.head < 1024) (ht : c.outbound_queue.tail < 1024) :
    ((c.send_rpc now id method params).1 = false
        ↔ (c.rate_limiter.allow_request now).1 = false)
    ∧ ((c.rate_limiter.allow_request now).1 = false →
        (c.send_rpc now id method params).2.outbound_queue = c.outbound_queue)
    ∧ ((c.rate_limiter.allow_request now).1 = true →
        (c.send_rpc now id method params).1 = true
        ∧ (c.outbound_queue.toList.length < 1024 - 1 →
            (c.send_rpc now id method params).2.outbound_queue.toList
              = c.outbound_queue.toList ++ [mkRpcMsg id method params])
        ∧ (c.outbound_queue.toList.length = 1024 - 1 →
            (c.send_rpc now id method params).2.outbound_queue = c.outbound_queue)) := by
  have hN : (1024 : Nat) = 2 ^ 10 := by norm_num
  rw [send_rpc_eq]
  by_cases hg : (c.rate_limiter.allow_request now).1 = false
  · rw [if_pos hg]
    refine ⟨by simp [hg], fun _ => rfl, fun hg' => ?_⟩
    rw [hg] at hg'
    exact absurd hg' (by simp)
  · rw [if_neg hg]
    have hg' : (c.rate_limiter.allow_request now).1 = true := by
      cases hb : (c.rate_limiter.allow_request now).1
      · exact absurd hb hg
      · rfl
    refine ⟨by simp [hg'], fun hfalse => absurd hfalse hg, fun _ => ⟨rfl, ?_, ?_⟩⟩
    · intro hlt
      have hok : (c.outbound_queue.push (mkRpcMsg id method params)).1 = true := by
        cases hb : (c.outbound_queue.push (mkRpcMsg id method params)).1
        · have := (push_false_iff hN c.outbound_queue (mkRpcMsg id method params) hh ht).mp hb
          omega
        · rfl
      exact (push_true_toList hN c.outbound_queue (mkRpcMsg id method params) hh ht hok).1
    · intro hfull
      have hb : (c.outbound_queue.push (mkRpcMsg id method params)).1 = false :=
        (push_false_iff hN c.outbound_queue (mkRpcMsg id method params) hh ht).mpr hfull
      exact push_false_state hN c.outbound_queue (mkRpcMsg id method params) hb

/-- Counterexample to C6 as stated: with a full token bucket and a full
outbound queue (head 1023, tail 0), the gate admits, `push` reports the
queue full, yet `send_rpc` returns `true` and leaves the queue
unchanged — the caller does not observe the dropped submission. -/
theorem send_rpc_silent_drop_cex :
    ((⟨⟨20, 0⟩, ⟨fun _ => "", 1023, 0⟩⟩ : DeribitClient).rate_limiter.allow_request 0).1 = true
    ∧ ((⟨⟨20, 0⟩, ⟨fun _ => "", 1023, 0⟩⟩ : DeribitClient).send_rpc 0 1 "public/ping" "\x7b\x7d").1 = true
    ∧ ((⟨⟨20, 0⟩, ⟨fun _ => "", 1023, 0⟩⟩ : DeribitClient).send_rpc 0 1 "public/ping" "\x7b\x7d").2.outbound_queue
        = (⟨⟨20, 0⟩, ⟨fun _ => "", 1023, 0⟩⟩ : DeribitClient).outbound_queue
    ∧ ((⟨⟨20, 0⟩, ⟨fun _ => "", 1023, 0⟩⟩ : DeribitClient).outbound_queue.push
        (mkRpcMsg 1 "public/ping" "\x7b\x7d")).1 = false := by
  have hallow : (⟨(20 : ℚ), 0⟩ : RateLimiter).allow_request 0 = (true, ⟨19, 0⟩) := by
    unfold RateLimiter.allow_request
    norm_num [MAX_TOKENS, REFILL_RATE]
  have hpush : ∀ msg : String, ((⟨fun _ => "", 1023, 0⟩ : SPSCQueue String 1024).push msg)
      = (false, (⟨fun _ => "", 1023, 0⟩ : SPSCQueue String 1024)) := by
    intro msg
    simp only [SPSCQueue.push]
    rw [show (1023 + 1) &&& (1024 - 1) = 0 from by decide]
    rfl
  refine ⟨?_, ?_, ?_, ?_⟩
  · rw [hallow]
  · rw [send_rpc_eq]
    rw [hallow]
    simp
  · rw [send_rpc_eq]
    rw [hallow]
    simp [hpush]
  · rw [hpush]

/-- Witness for the amended C6 on an empty outbound queue at time 0. -/
theorem send_rpc_gate_and_enqueue_witness :
    ((⟨⟨20, 0⟩, ⟨fun _ => "", 0, 0⟩⟩ : DeribitClient).outbound_queue.head < 1024
      ∧ (⟨⟨20, 0⟩, ⟨fun _ => "", 0, 0⟩⟩ : DeribitClient).outbound_queue.tail < 1024)
    ∧ ((((⟨⟨20, 0⟩, ⟨fun _ => "", 0, 0⟩⟩ : DeribitClient).send_rpc 0 1 "public/ping" "\x7b\x7d").1 = false
          ↔ ((⟨⟨20, 0⟩, ⟨fun _ => "", 0, 0⟩⟩ : DeribitClient).rate_limiter.allow_request 0).1 = false)
      ∧ (((⟨⟨20, 0⟩, ⟨fun _ => "", 0, 0⟩⟩ : DeribitClient).rate_limiter.allow_request 0).1 = false →
          ((⟨⟨20, 0⟩, ⟨fun _ => "", 0, 0⟩⟩ : DeribitClient).send_rpc 0 1 "public/ping" "\x7b\x7d").2.outbound_queue
            = (⟨⟨20, 0⟩, ⟨fun _ => "", 0, 0⟩⟩ : DeribitClient).outbound_queue)
      ∧ (((⟨⟨20, 0⟩, ⟨fun _ => "", 0, 0⟩⟩ : DeribitClient).rate_limiter.allow_request 0).1 = true →
          ((⟨⟨20, 0⟩, ⟨fun _ => "", 0, 0⟩⟩ : DeribitClient).send_rpc 0 1 "public/ping" "\x7b\x7d").1 = true
          ∧ ((⟨⟨20, 0⟩, ⟨fun _ => "", 0, 0⟩⟩ : DeribitClient).outbound_queue.toList.length < 1024 - 1 →
              ((⟨⟨20, 0⟩, ⟨fun _ => "", 0, 0⟩⟩ : DeribitClient).send_rpc 0 1 "public/ping" "\x7b\x7d").2.outbound_queue.toList
                = (⟨⟨20, 0⟩, ⟨fun _ => "", 0, 0⟩⟩ : DeribitClient).outbound_queue.toList
                    ++ [mkRpcMsg 1 "public/ping" "\x7b\x7d"])
          ∧ ((⟨⟨20, 0⟩, ⟨fun _ => "", 0, 0⟩⟩ : DeribitClient).outbound_queue.toList.length = 1024 - 1 →
              ((⟨⟨20, 0⟩, ⟨fun _ => "", 0, 0⟩⟩ : DeribitClient).send_rpc 0 1 "public/ping" "\x7b\x7d").2.outbound_queue
                = (⟨⟨20, 0⟩, ⟨fun _ => "", 0, 0⟩⟩ : DeribitClient).outbound_queue))) :=
  ⟨⟨by decide, by decide⟩,
    send_rpc_gate_and_enqueue (⟨⟨20, 0⟩, ⟨fun _ => "", 0, 0⟩⟩ : DeribitClient)
      0 1 "public/ping" "\x7b\x7d" (by decide) (by decide)⟩
